import Mathlib

/-!
Shallow embedding of the tree-sitter SQL MCP server core
(src/common/tree_sitter_sql.rs): the dual-mode parsing contract
(parse_sql / parse_sql_with_error_recovery) and the tree renderer
(write_tree / visit).

The grammar engine (the tree-sitter library and the SQL grammar) is an
external collaborator: a syntax tree is modelled as the inductive type
Node (kind string, error classification, start and end positions, byte
range, ordered children), and a parser is an arbitrary total function
String to Node, exactly as the design treats it (a capability
parse(text) to Tree).  The renderer and the two tool operations are
translated from the Rust source; a Rust panic (an unwrap failure) is
modelled as the value none.
-/

/-- A source position as the grammar engine reports it: a zero-based row
and a zero-based column. -/
structure Pos where
  row : Nat
  col : Nat
deriving DecidableEq, Repr

/-- A syntax-tree node as produced by the grammar engine: a kind tag, the
engine's error classification (true for an error or recovery-artifact
node), start and end positions, the byte range of the node's span in the
source text, and the ordered list of children. -/
inductive Node where
  | mk (kind : String) (isErr : Bool) (startPos endPos : Pos)
       (startByte endByte : Nat) (children : List Node)

def Node.kind : Node → String
  | .mk k _ _ _ _ _ _ => k

def Node.isErr : Node → Bool
  | .mk _ e _ _ _ _ _ => e

def Node.startPos : Node → Pos
  | .mk _ _ sp _ _ _ _ => sp

def Node.endPos : Node → Pos
  | .mk _ _ _ ep _ _ _ => ep

def Node.startByte : Node → Nat
  | .mk _ _ _ _ sb _ _ => sb

def Node.endByte : Node → Nat
  | .mk _ _ _ _ _ eb _ => eb

def Node.children : Node → List Node
  | .mk _ _ _ _ _ _ cs => cs

/-- The UTF-8 encoding of one character (1 to 4 bytes), as Rust's
str::as_bytes exposes it. -/
def utf8EncodeChar (c : Char) : List Nat :=
  let n := c.toNat
  if n < 0x80 then [n]
  else if n < 0x800 then [0xC0 ||| (n >>> 6), 0x80 ||| (n &&& 0x3F)]
  else if n < 0x10000 then
    [0xE0 ||| (n >>> 12), 0x80 ||| ((n >>> 6) &&& 0x3F), 0x80 ||| (n &&& 0x3F)]
  else
    [0xF0 ||| (n >>> 18), 0x80 ||| ((n >>> 12) &&& 0x3F),
     0x80 ||| ((n >>> 6) &&& 0x3F), 0x80 ||| (n &&& 0x3F)]

/-- The UTF-8 byte sequence of a string (Rust: src.as_bytes()). -/
def strBytes (s : String) : List Nat := s.data.flatMap utf8EncodeChar

/-- Is this byte a UTF-8 continuation byte. -/
def isCont (b : Nat) : Bool := 0x80 ≤ b && b < 0xC0

/-- The payload bits of a continuation byte. -/
def contVal (b : Nat) : Nat := b &&& 0x3F

/-- UTF-8 decoding of a byte list (Rust: str::from_utf8), rejecting
truncated sequences, stray continuation bytes, overlong encodings,
surrogates and out-of-range code points.  Fuelled; the fuel is the
length of the list, and at least one byte is consumed per step. -/
def decodeUtf8Core : Nat → List Nat → Option (List Char)
  | _, [] => some []
  | 0, _ :: _ => none
  | fuel+1, b :: bs =>
    if b < 0x80 then
      (decodeUtf8Core fuel bs).map (fun cs => Char.ofNat b :: cs)
    else if b < 0xC2 then none
    else if b < 0xE0 then
      match bs with
      | b1 :: bs1 =>
        if isCont b1 then
          (decodeUtf8Core fuel bs1).map
            (fun cs => Char.ofNat (((b &&& 0x1F) <<< 6) ||| contVal b1) :: cs)
        else none
      | [] => none
    else if b < 0xF0 then
      match bs with
      | b1 :: b2 :: bs2 =>
        if isCont b1 && isCont b2 then
          let n := ((b &&& 0x0F) <<< 12) ||| ((contVal b1) <<< 6) ||| contVal b2
          if 0x800 ≤ n && !(0xD800 ≤ n && n < 0xE000) then
            (decodeUtf8Core fuel bs2).map (fun cs => Char.ofNat n :: cs)
          else none
        else none
      | _ => none
    else if b < 0xF5 then
      match bs with
      | b1 :: b2 :: b3 :: bs3 =>
        if isCont b1 && isCont b2 && isCont b3 then
          let n := ((b &&& 0x07) <<< 18) ||| ((contVal b1) <<< 12) |||
                   ((contVal b2) <<< 6) ||| contVal b3
          if 0x10000 ≤ n && n < 0x110000 then
            (decodeUtf8Core fuel bs3).map (fun cs => Char.ofNat n :: cs)
          else none
        else none
      | _ => none
    else none

def decodeUtf8 (bs : List Nat) : Option (List Char) := decodeUtf8Core bs.length bs

/-- Node.utf8_text of the Rust tree-sitter binding: slice the source's
byte array by the node's byte range and decode it as UTF-8.  An
out-of-range slice (a Rust indexing panic) or an invalid UTF-8 slice (a
Utf8Error, unwrapped by the caller) is none. -/
def utf8_text (src : String) (sb eb : Nat) : Option String :=
  let bytes := strBytes src
  if sb ≤ eb && eb ≤ bytes.length then
    (decodeUtf8 ((bytes.drop sb).take (eb - sb))).map (fun cs => String.mk cs)
  else none

mutual

/-- Tree-sitter's has_error flag on a node: true when the node itself or
any descendant is classified as an error node (a full-tree scan, the
tree-wide flag the grammar engine maintains). -/
def hasError : Node → Bool
  | .mk _ e _ _ _ _ cs => e || hasErrorList cs

def hasErrorList : List Node → Bool
  | [] => false
  | c :: cs => hasError c || hasErrorList cs

end

/-- The indentation unit (Rust: const UNIT: usize = 2). -/
def UNIT : Nat := 2

/-- The display of a position by the grammar engine's native position
type (tree-sitter's Point).  Modelled from the spec: the engine's
convention is a parenthesised, comma-separated zero-based row and
column pair. -/
def posDisplay (p : Pos) : String :=
  "(" ++ Nat.repr p.row ++ ", " ++ Nat.repr p.col ++ ")"

def indentStr (depth : Nat) : String := String.mk (List.replicate (depth * UNIT) '-')

mutual

/-- The visit function of the source: append the node's line to the
accumulated result (indentation of depth * UNIT dashes, the kind, for a
zero-child node a space and the double-quoted source slice, then the
bracketed position span and a newline), then visit every child at
depth + 1.  A failed slice (the source's unwrap panic) is none. -/
def visit (src : String) : Node → Nat → String → Option String
  | .mk k _ sp ep sb eb cs, depth, result =>
    match (if cs.length = 0 then
             (utf8_text src sb eb).map
               (fun t => result ++ indentStr depth ++ k ++ " \"" ++ t ++ "\"")
           else some (result ++ indentStr depth ++ k)) with
    | none => none
    | some r2 =>
      visitList src cs (depth + 1)
        (r2 ++ " [" ++ posDisplay sp ++ "-" ++ posDisplay ep ++ "]\n")

/-- The child loop of visit: goto_first_child, visit, then every
goto_next_sibling in order. -/
def visitList (src : String) : List Node → Nat → String → Option String
  | [], _, result => some result
  | c :: cs, depth, result =>
    match visit src c depth result with
    | none => none
    | some r => visitList src cs depth r

end

/-- write_tree of the source: walk the tree from the root at depth 0
into an initially empty result string. -/
def write_tree (tree : Node) (src : String) : Option String :=
  visit src tree 0 ""

/-- The error type of the tool layer (rmcp's McpError): a JSON-RPC
error code, a message, and optional data. -/
structure McpError where
  code : Int
  message : String
  data : Option String
deriving DecidableEq, Repr

/-- McpError::invalid_params: the invalid-parameters JSON-RPC error
class (code -32602). -/
def McpError.invalid_params (msg : String) (d : Option String) : McpError :=
  ⟨-32602, msg, d⟩

/-- A content item of a tool result (rmcp's Content::text). -/
inductive Content where
  | text (s : String)
deriving DecidableEq, Repr

/-- A tool call result (rmcp's CallToolResult). -/
structure CallToolResult where
  content : List Content
  isErr : Option Bool
deriving DecidableEq, Repr

/-- CallToolResult::success: wraps content with the error flag cleared. -/
def CallToolResult.success (c : List Content) : CallToolResult :=
  ⟨c, some false⟩

/-- parse_sql of the source: parse, then the strict gate — if the tree's
root has_error, return the invalid-parameters error with the fixed
message, otherwise render the tree and return it as a text content.
The outer Option is the Rust panic possibility of the renderer. -/
def parse_sql (parse : String → Node) (sql : String) :
    Option (Except McpError CallToolResult) :=
  let tree := parse sql
  if hasError tree then
    some (Except.error (McpError.invalid_params "Failed to parse sql" none))
  else
    (write_tree tree sql).map
      (fun r => Except.ok (CallToolResult.success [Content.text r]))

/-- parse_sql_with_error_recovery of the source: parse and render
unconditionally, without the strict gate. -/
def parse_sql_with_error_recovery (parse : String → Node) (sql : String) :
    Option (Except McpError CallToolResult) :=
  let tree := parse sql
  (write_tree tree sql).map
    (fun r => Except.ok (CallToolResult.success [Content.text r]))

/-- The single line the renderer emits for one node at a given depth
(before its children are visited): indentation, kind, the quoted source
slice exactly when the node has zero children, and the span suffix. -/
def nodeEmission (src : String) (n : Node) (depth : Nat) : Option String :=
  match n with
  | .mk k _ sp ep sb eb cs =>
    (if cs.length = 0 then
       (utf8_text src sb eb).map (fun t => indentStr depth ++ k ++ " \"" ++ t ++ "\"")
     else some (indentStr depth ++ k)).map
      (fun s => s ++ " [" ++ posDisplay sp ++ "-" ++ posDisplay ep ++ "]\n")

mutual

/-- Depth-first pre-order traversal of a tree, pairing each node with
the depth at which the renderer meets it. -/
def preorderD : Node → Nat → List (Node × Nat)
  | .mk k e sp ep sb eb cs, d =>
    (Node.mk k e sp ep sb eb cs, d) :: preorderDList cs (d + 1)

def preorderDList : List Node → Nat → List (Node × Nat)
  | [], _ => []
  | c :: cs, d => preorderD c d ++ preorderDList cs d

end

mutual

/-- Every leaf of the tree has a byte range that slices the source to
valid UTF-8: the renderer's structural-validity requirement (no
out-of-range or mid-codepoint leaf span). -/
def sliceable (src : String) : Node → Bool
  | .mk _ _ _ _ sb eb cs =>
    (if cs.length = 0 then (utf8_text src sb eb).isSome else true) &&
      sliceableList src cs

def sliceableList (src : String) : List Node → Bool
  | [] => true
  | c :: cs => sliceable src c && sliceableList src cs

end

mutual

/-- The number of nodes of a tree. -/
def countNodes : Node → Nat
  | .mk _ _ _ _ _ _ cs => 1 + countNodesList cs

def countNodesList : List Node → Nat
  | [] => 0
  | c :: cs => countNodes c + countNodesList cs

end

/-- The number of pre-order lines belonging to error nodes. -/
def errorLineCount (t : Node) : Nat :=
  ((preorderD t 0).filter (fun p => p.1.isErr)).length

/-- The number of newline characters in a string; the rendered output
ends in a newline, so this is its number of lines. -/
def newlineCount (s : String) : Nat := s.data.count '\n'

theorem foldl_append_init (l : List String) :
    ∀ a : String, l.foldl (· ++ ·) a = a ++ l.foldl (· ++ ·) "" := by
  induction l with
  | nil => intro a; simp [List.foldl, String.append_empty]
  | cons x xs ih =>
    intro a
    simp only [List.foldl]
    rw [ih (a ++ x), ih ("" ++ x)]
    simp [String.append_assoc]

theorem join_cons (s : String) (l : List String) :
    String.join (s :: l) = s ++ String.join l := by
  simp only [String.join, List.foldl]
  rw [foldl_append_init l ("" ++ s)]
  simp

theorem join_append (l1 l2 : List String) :
    String.join (l1 ++ l2) = String.join l1 ++ String.join l2 := by
  induction l1 with
  | nil => simp [String.join]
  | cons x xs ih =>
    rw [List.cons_append, join_cons, join_cons, ih, String.append_assoc]

theorem strData_append (a b : String) : (a ++ b).data = a.data ++ b.data := rfl

mutual

theorem visit_join (src : String) : ∀ (n : Node) (d : Nat) (r : String),
    sliceable src n = true →
    visit src n d r =
      some (r ++ String.join ((preorderD n d).map
        (fun p => (nodeEmission src p.1 p.2).getD "")))
  | .mk k e sp ep sb eb cs, d, r, h => by
    rw [sliceable] at h
    simp only [Bool.and_eq_true] at h
    obtain ⟨h1, h2⟩ := h
    have hrec : ∀ r' : String, visitList src cs (d + 1) r' =
        some (r' ++ String.join ((preorderDList cs (d + 1)).map
          (fun p => (nodeEmission src p.1 p.2).getD ""))) :=
      fun r' => visitList_join src cs (d + 1) r' h2
    rw [visit, preorderD]
    by_cases hc : cs.length = 0
    · rw [if_pos hc] at h1
      obtain ⟨t, ht⟩ := Option.isSome_iff_exists.mp h1
      rw [if_pos hc, ht]
      refine (hrec _).trans (congrArg some ?_)
      rw [List.map_cons, join_cons]
      simp only [nodeEmission, hc, ht, if_pos, Option.map_some', Option.getD_some]
      apply String.ext
      simp [strData_append, List.append_assoc]
    · rw [if_neg hc]
      refine (hrec _).trans (congrArg some ?_)
      rw [List.map_cons, join_cons]
      simp only [nodeEmission, hc, if_neg, if_false, Option.map_some', Option.getD_some]
      apply String.ext
      simp [strData_append, List.append_assoc]

theorem visitList_join (src : String) : ∀ (l : List Node) (d : Nat) (r : String),
    sliceableList src l = true →
    visitList src l d r =
      some (r ++ String.join ((preorderDList l d).map
        (fun p => (nodeEmission src p.1 p.2).getD "")))
  | [], d, r, _ => by simp [visitList, preorderDList, String.join]
  | c :: cs, d, r, h => by
    rw [sliceableList] at h
    simp only [Bool.and_eq_true] at h
    obtain ⟨h1, h2⟩ := h
    have hrec : ∀ r' : String, visitList src cs d r' =
        some (r' ++ String.join ((preorderDList cs d).map
          (fun p => (nodeEmission src p.1 p.2).getD ""))) :=
      fun r' => visitList_join src cs d r' h2
    rw [visitList]
    rw [visit_join src c d r h1]
    simp only [Option.map_some']
    rw [hrec]
    rw [preorderDList, List.map_append, join_append]
    apply congrArg some
    apply String.ext
    simp [strData_append, List.append_assoc]

end

theorem write_tree_join (src : String) (t : Node) (h : sliceable src t = true) :
    write_tree t src =
      some (String.join ((preorderD t 0).map
        (fun p => (nodeEmission src p.1 p.2).getD ""))) := by
  rw [write_tree, visit_join src t 0 "" h]
  apply congrArg some
  apply String.ext
  simp [strData_append]

theorem digitChar_ne_quote (m : Nat) : Nat.digitChar m ≠ '"' := by
  unfold Nat.digitChar
  rcases Nat.lt_or_ge m 16 with h | h
  · interval_cases m <;> decide
  · rw [if_neg (by omega : ¬ m = 0), if_neg (by omega : ¬ m = 1),
        if_neg (by omega : ¬ m = 2), if_neg (by omega : ¬ m = 3),
        if_neg (by omega : ¬ m = 4), if_neg (by omega : ¬ m = 5),
        if_neg (by omega : ¬ m = 6), if_neg (by omega : ¬ m = 7),
        if_neg (by omega : ¬ m = 8), if_neg (by omega : ¬ m = 9),
        if_neg (by omega : ¬ m = 10), if_neg (by omega : ¬ m = 11),
        if_neg (by omega : ¬ m = 12), if_neg (by omega : ¬ m = 13),
        if_neg (by omega : ¬ m = 14), if_neg (by omega : ¬ m = 15)]
    decide

theorem toDigitsCore_no_quote (b : Nat) : ∀ (f n : Nat) (acc : List Char),
    (∀ c ∈ acc, c ≠ '"') → ∀ c ∈ Nat.toDigitsCore b f n acc, c ≠ '"' := by
  intro f
  induction f with
  | zero => intro n acc hacc; simpa [Nat.toDigitsCore] using hacc
  | succ f ih =>
    intro n acc hacc
    rw [Nat.toDigitsCore]
    by_cases hq : n / b = 0
    · simp only [hq, if_pos]
      intro c hc
      rcases List.mem_cons.mp hc with h | h
      · subst h; exact digitChar_ne_quote _
      · exact hacc c h
    · simp only [hq, if_neg, if_false]
      apply ih
      intro c hc
      rcases List.mem_cons.mp hc with h | h
      · subst h; exact digitChar_ne_quote _
      · exact hacc c h

theorem repr_no_quote (n : Nat) : ∀ c ∈ (Nat.repr n).data, c ≠ '"' := by
  intro c hc
  have hd : (Nat.repr n).data = Nat.toDigitsCore 10 (n + 1) n [] := rfl
  rw [hd] at hc
  exact toDigitsCore_no_quote 10 (n + 1) n [] (by intro c hc; cases hc) c hc

theorem posDisplay_no_quote (p : Pos) : ∀ c ∈ (posDisplay p).data, c ≠ '"' := by
  intro c hc
  rw [posDisplay] at hc
  simp only [strData_append, List.mem_append] at hc
  rcases hc with (((hc | hc) | hc) | hc) | hc
  · simp at hc; subst hc; decide
  · exact repr_no_quote _ c hc
  · simp at hc; rcases hc with hc | hc <;> (subst hc; decide)
  · exact repr_no_quote _ c hc
  · simp at hc; subst hc; decide

mutual

theorem hasError_iff_pre : ∀ (n : Node) (d : Nat),
    hasError n = true ↔ ∃ p ∈ preorderD n d, p.1.isErr = true
  | .mk k e sp ep sb eb cs, d => by
    rw [hasError, preorderD]
    simp only [Bool.or_eq_true]
    rw [hasErrorList_iff_pre cs (d + 1)]
    constructor
    · rintro (he | ⟨p, hp, hpe⟩)
      · exact ⟨(Node.mk k e sp ep sb eb cs, d), List.mem_cons_self _ _, he⟩
      · exact ⟨p, List.mem_cons_of_mem _ hp, hpe⟩
    · rintro ⟨p, hp, hpe⟩
      rcases List.mem_cons.mp hp with h | h
      · subst h; exact Or.inl hpe
      · exact Or.inr ⟨p, h, hpe⟩

theorem hasErrorList_iff_pre : ∀ (l : List Node) (d : Nat),
    hasErrorList l = true ↔ ∃ p ∈ preorderDList l d, p.1.isErr = true
  | [], d => by simp [hasErrorList, preorderDList]
  | c :: cs, d => by
    rw [hasErrorList, preorderDList]
    simp only [Bool.or_eq_true]
    rw [hasError_iff_pre c d, hasErrorList_iff_pre cs d]
    constructor
    · rintro (⟨p, hp, hpe⟩ | ⟨p, hp, hpe⟩)
      · exact ⟨p, List.mem_append_left _ hp, hpe⟩
      · exact ⟨p, List.mem_append_right _ hp, hpe⟩
    · rintro ⟨p, hp, hpe⟩
      rcases List.mem_append.mp hp with h | h
      · exact Or.inl ⟨p, h, hpe⟩
      · exact Or.inr ⟨p, h, hpe⟩

end

theorem errorLineCount_zero (t : Node) (h : hasError t = false) :
    errorLineCount t = 0 := by
  rw [errorLineCount, List.length_eq_zero, List.filter_eq_nil_iff]
  intro p hp
  simp only [Bool.not_eq_true]
  by_contra hne
  rw [Bool.not_eq_false] at hne
  have : hasError t = true := (hasError_iff_pre t 0).mpr ⟨p, hp, hne⟩
  rw [h] at this
  cases this

theorem errorLineCount_pos (t : Node) (h : hasError t = true) :
    1 ≤ errorLineCount t := by
  obtain ⟨p, hp, hpe⟩ := (hasError_iff_pre t 0).mp h
  have hmem : p ∈ (preorderD t 0).filter (fun p => p.1.isErr) :=
    List.mem_filter.mpr ⟨hp, hpe⟩
  have := List.length_pos.mpr (List.ne_nil_of_mem hmem)
  rw [errorLineCount]
  omega

mutual

theorem preorderD_length : ∀ (n : Node) (d : Nat),
    (preorderD n d).length = countNodes n
  | .mk k e sp ep sb eb cs, d => by
    rw [preorderD, countNodes, List.length_cons, preorderDList_length cs (d + 1)]
    omega

theorem preorderDList_length : ∀ (l : List Node) (d : Nat),
    (preorderDList l d).length = countNodesList l
  | [], d => by simp [preorderDList, countNodesList]
  | c :: cs, d => by
    rw [preorderDList, countNodesList, List.length_append,
        preorderD_length c d, preorderDList_length cs d]

end

theorem newlineCount_append (a b : String) :
    newlineCount (a ++ b) = newlineCount a + newlineCount b := by
  simp [newlineCount, strData_append, List.count_append]

theorem newlineCount_join (ls : List String) :
    newlineCount (String.join ls) = (ls.map newlineCount).sum := by
  induction ls with
  | nil => simp [String.join, newlineCount]
  | cons x xs ih =>
    rw [join_cons, newlineCount_append, ih, List.map_cons, List.sum_cons]

mutual

theorem visit_extends (src : String) : ∀ (n : Node) (d : Nat) (r out : String),
    visit src n d r = some out → ∃ s, out = r ++ s
  | .mk k e sp ep sb eb cs, d, r, out => by
    rw [visit]
    by_cases hc : cs.length = 0
    · rw [if_pos hc]
      cases ht : utf8_text src sb eb with
      | none => intro hv; simp at hv
      | some t =>
        simp only [Option.map_some']
        intro hv
        obtain ⟨s, hs⟩ := visitList_extends src cs (d + 1) _ out hv
        refine ⟨indentStr d ++ k ++ " \"" ++ t ++ "\"" ++ " [" ++ posDisplay sp ++
          "-" ++ posDisplay ep ++ "]\n" ++ s, ?_⟩
        rw [hs]
        apply String.ext
        simp [strData_append, List.append_assoc]
    · rw [if_neg hc]
      intro hv
      obtain ⟨s, hs⟩ := visitList_extends src cs (d + 1) _ out hv
      refine ⟨indentStr d ++ k ++ " [" ++ posDisplay sp ++ "-" ++ posDisplay ep ++
        "]\n" ++ s, ?_⟩
      rw [hs]
      apply String.ext
      simp [strData_append, List.append_assoc]

theorem visitList_extends (src : String) : ∀ (l : List Node) (d : Nat) (r out : String),
    visitList src l d r = some out → ∃ s, out = r ++ s
  | [], d, r, out => by
    rw [visitList]
    intro h
    obtain rfl := Option.some.inj h
    exact ⟨"", by apply String.ext; simp [strData_append]⟩
  | c :: cs, d, r, out => by
    rw [visitList]
    cases hv : visit src c d r with
    | none => intro h; simp at h
    | some r1 =>
      intro h
      obtain ⟨s1, hs1⟩ := visit_extends src c d r r1 hv
      obtain ⟨s2, hs2⟩ := visitList_extends src cs d r1 out h
      refine ⟨s1 ++ s2, ?_⟩
      rw [hs2, hs1]
      apply String.ext
      simp [strData_append, List.append_assoc]

end

mutual

theorem visit_quote (src : String) : ∀ (n : Node) (d : Nat) (r out : String),
    visit src n d r = some out → '"' ∈ out.data
  | .mk k e sp ep sb eb cs, d, r, out => by
    rw [visit]
    by_cases hc : cs.length = 0
    · rw [if_pos hc]
      cases ht : utf8_text src sb eb with
      | none => intro hv; simp at hv
      | some t =>
        simp only [Option.map_some']
        intro hv
        obtain ⟨s, hs⟩ := visitList_extends src cs (d + 1) _ out hv
        rw [hs]
        simp [strData_append]
    · rw [if_neg hc]
      intro hv
      have hcs : cs ≠ [] := by
        intro hnil
        apply hc
        rw [hnil]
        rfl
      exact visitList_quote src cs hcs (d + 1) _ out hv

theorem visitList_quote (src : String) : ∀ (l : List Node), l ≠ [] →
    ∀ (d : Nat) (r out : String), visitList src l d r = some out → '"' ∈ out.data
  | [], h, _, _, _ => absurd rfl h
  | c :: cs, _, d, r, out => by
    rw [visitList]
    cases hv : visit src c d r with
    | none => intro h; simp at h
    | some r1 =>
      intro h
      have hq : '"' ∈ r1.data := visit_quote src c d r r1 hv
      obtain ⟨s2, hs2⟩ := visitList_extends src cs d r1 out h
      rw [hs2]
      simp only [strData_append, List.mem_append]
      exact Or.inl hq

end

/-- A demonstration leaf: an identifier covering the one-byte source
"a". -/
def demoLeaf : Node := .mk "identifier" false ⟨0, 0⟩ ⟨0, 1⟩ 0 1 []

/-- A demonstration tree: a root with the single leaf child demoLeaf. -/
def demoTree : Node := .mk "program" false ⟨0, 0⟩ ⟨0, 1⟩ 0 1 [demoLeaf]

/-- The rendering of demoTree over the source "a". -/
def demoOut : String := (write_tree demoTree "a").getD ""

/-- A demonstration error node, as the grammar emits on unresolvable
input. -/
def demoErrLeaf : Node := .mk "ERROR" true ⟨0, 0⟩ ⟨0, 1⟩ 0 1 []

/-- A demonstration tree containing an error node. -/
def demoErrTree : Node := .mk "program" false ⟨0, 0⟩ ⟨0, 1⟩ 0 1 [demoErrLeaf]

/-- C3: the line the renderer emits for a node carries a single space
followed by the node's exact double-quoted source slice exactly when
the node has zero children: a zero-child node's line is
indentation ++ kind ++ quoted slice ++ span, a node with children gets
indentation ++ kind ++ span with no quoted fragment, and — since
grammar rule names contain no double-quote character — such a line
contains no double-quote character at all. -/
theorem C3_leaf_quote_iff (src : String) (n : Node) (d : Nat) :
    (n.children = [] → ∀ t, utf8_text src n.startByte n.endByte = some t →
      nodeEmission src n d = some (indentStr d ++ n.kind ++ " \"" ++ t ++ "\"" ++
        " [" ++ posDisplay n.startPos ++ "-" ++ posDisplay n.endPos ++ "]\n")) ∧
    (n.children ≠ [] →
      nodeEmission src n d = some (indentStr d ++ n.kind ++
        " [" ++ posDisplay n.startPos ++ "-" ++ posDisplay n.endPos ++ "]\n")) ∧
    (n.children ≠ [] → (∀ c ∈ n.kind.data, c ≠ '"') →
      ∀ l, nodeEmission src n d = some l → ∀ c ∈ l.data, c ≠ '"') := by
  obtain ⟨k, e, sp, ep, sb, eb, cs⟩ := n
  simp only [Node.children, Node.kind, Node.startByte, Node.endByte,
    Node.startPos, Node.endPos]
  have hint : cs ≠ [] → nodeEmission src (Node.mk k e sp ep sb eb cs) d =
      some (indentStr d ++ k ++ " [" ++ posDisplay sp ++ "-" ++
        posDisplay ep ++ "]\n") := by
    intro hc
    have hlen : ¬ cs.length = 0 := by
      simpa [List.length_eq_zero] using hc
    rw [nodeEmission, if_neg hlen]
    rfl
  refine ⟨?_, hint, ?_⟩
  · intro hcs t ht
    subst hcs
    rw [nodeEmission]
    simp only [List.length_nil, if_pos, ht, Option.map_some']
  · intro hcs hk l hl c hcl
    rw [hint hcs] at hl
    obtain rfl := Option.some.inj hl
    simp only [strData_append, List.mem_append] at hcl
    rcases hcl with (((((hm | hm) | hm) | hm) | hm) | hm) | hm
    · rw [indentStr] at hm
      obtain rfl := List.eq_of_mem_replicate hm
      decide
    · exact hk c hm
    · simp at hm
      rcases hm with rfl | rfl <;> decide
    · exact posDisplay_no_quote sp c hm
    · simp at hm
      subst hm
      decide
    · exact posDisplay_no_quote ep c hm
    · simp at hm
      rcases hm with rfl | rfl <;> decide

/-- C3 witness: the leaf of the demonstration tree gets a quoted slice,
its one-child root does not. -/
theorem C3_witness :
    nodeEmission "a" demoLeaf 1 = some (indentStr 1 ++ "identifier" ++ " \"" ++
      "a" ++ "\"" ++ " [" ++ posDisplay ⟨0, 0⟩ ++ "-" ++ posDisplay ⟨0, 1⟩ ++ "]\n") ∧
    nodeEmission "a" demoTree 0 = some (indentStr 0 ++ "program" ++
      " [" ++ posDisplay ⟨0, 0⟩ ++ "-" ++ posDisplay ⟨0, 1⟩ ++ "]\n") :=
  ⟨(C3_leaf_quote_iff "a" demoLeaf 1).1 rfl "a" (by decide),
   (C3_leaf_quote_iff "a" demoTree 0).2.1 (List.cons_ne_nil demoLeaf [])⟩

/-- C4: the renderer is a depth-first pre-order traversal from the root
at depth 0: the rendered output is the concatenation, over the
pre-order (node, depth) list — each node immediately followed by its
children in left-to-right order at depth + 1, before its next
sibling — of the per-node emissions, and every emission begins with
depth * 2 repetitions of the indentation character. -/
theorem C4_preorder_render (src : String) (t : Node) (h : sliceable src t = true) :
    write_tree t src = some (String.join ((preorderD t 0).map
      (fun p => (nodeEmission src p.1 p.2).getD ""))) ∧
    (∀ (n : Node) (d : Nat),
      preorderD n d = (n, d) :: preorderDList n.children (d + 1)) ∧
    (∀ (n : Node) (d : Nat) (l : String), nodeEmission src n d = some l →
      ∃ rest, l = String.mk (List.replicate (d * 2) '-') ++ rest) := by
  refine ⟨write_tree_join src t h, ?_, ?_⟩
  · intro n d
    obtain ⟨k, e, sp, ep, sb, eb, cs⟩ := n
    rfl
  · intro n d l hl
    obtain ⟨k, e, sp, ep, sb, eb, cs⟩ := n
    rw [nodeEmission] at hl
    by_cases hc : cs.length = 0
    · rw [if_pos hc] at hl
      cases ht : utf8_text src sb eb with
      | none => rw [ht] at hl; cases hl
      | some t' =>
        rw [ht] at hl
        simp only [Option.map_some'] at hl
        refine ⟨k ++ " \"" ++ t' ++ "\"" ++ " [" ++ posDisplay sp ++ "-" ++
          posDisplay ep ++ "]\n", ?_⟩
        obtain rfl := Option.some.inj hl
        apply String.ext
        simp [indentStr, UNIT, strData_append, List.append_assoc]
    · rw [if_neg hc] at hl
      simp only [Option.map_some'] at hl
      refine ⟨k ++ " [" ++ posDisplay sp ++ "-" ++ posDisplay ep ++ "]\n", ?_⟩
      obtain rfl := Option.some.inj hl
      apply String.ext
      simp [indentStr, UNIT, strData_append, List.append_assoc]

/-- C4 witness: the pre-order concatenation identity on the concrete
demonstration tree. -/
theorem C4_witness :
    write_tree demoTree "a" = some (String.join ((preorderD demoTree 0).map
      (fun p => (nodeEmission "a" p.1 p.2).getD ""))) :=
  (C4_preorder_render "a" demoTree (by decide)).1

/-- A two-node tree whose leaf covers the three-byte source slice
containing a newline (the source "a\nb" in full). -/
def mlLeaf : Node := .mk "literal" false ⟨0, 0⟩ ⟨1, 1⟩ 0 3 []

/-- The root above mlLeaf. -/
def mlTree : Node := .mk "program" false ⟨0, 0⟩ ⟨1, 1⟩ 0 3 [mlLeaf]

/-- C5 counterexample: a renderable two-node tree whose leaf slice
contains a newline renders to three lines, not two — the newline inside
the quoted slice adds a line, so line count does not equal node count
for every successfully rendered tree. -/
theorem C5_counterexample :
    (write_tree mlTree "a\nb").isSome = true ∧
    countNodes mlTree = 2 ∧
    newlineCount ((write_tree mlTree "a\nb").getD "") = 3 := by decide

/-- C5 amended: the renderer emits exactly one line per node, so the
newline count of a successful rendering is the number of nodes whenever
every per-node emission carries exactly one newline — as holds when no
node kind and no leaf source slice contains a newline character (the
counterexample's multi-line slice is the only way to break it). -/
theorem C5_line_count (src : String) (t : Node)
    (h : sliceable src t = true)
    (h1 : ∀ p ∈ preorderD t 0,
      newlineCount ((nodeEmission src p.1 p.2).getD "") = 1) :
    (write_tree t src).map newlineCount = some (countNodes t) := by
  rw [write_tree_join src t h]
  simp only [Option.map_some']
  rw [newlineCount_join]
  apply congrArg some
  calc ((((preorderD t 0).map (fun p => (nodeEmission src p.1 p.2).getD "")).map
          newlineCount)).sum
      = ((preorderD t 0).map (fun _ => 1)).sum := by
        rw [List.map_map]
        apply congrArg List.sum
        apply List.map_congr_left
        intro p hp
        exact h1 p hp
    _ = (preorderD t 0).length := by simp
    _ = countNodes t := preorderD_length t 0

/-- C5 witness: on the demonstration tree line count equals node
count. -/
theorem C5_witness :
    (write_tree demoTree "a").map newlineCount = some (countNodes demoTree) :=
  C5_line_count "a" demoTree (by decide) (by decide)

/-- C6: if parse_sql succeeds on an input then
parse_sql_with_error_recovery returns the textually identical result,
and the rendered tree has zero error-node lines (no pre-order line
belongs to an error node). -/
theorem C6_strict_tolerant_consistency (parse : String → Node) (sql : String)
    (res : CallToolResult)
    (h : parse_sql parse sql = some (Except.ok res)) :
    parse_sql_with_error_recovery parse sql = some (Except.ok res) ∧
    errorLineCount (parse sql) = 0 := by
  by_cases hhe : hasError (parse sql) = true
  · rw [parse_sql] at h
    simp only [hhe, if_true] at h
    exact absurd h (by simp)
  · have hfalse : hasError (parse sql) = false := by simpa using hhe
    refine ⟨?_, errorLineCount_zero _ hfalse⟩
    rw [parse_sql] at h
    simp only [hfalse, Bool.false_eq_true, if_false] at h
    simpa [parse_sql_with_error_recovery] using h

/-- C6 witness: concrete agreement of the two operations on the
demonstration tree. -/
theorem C6_witness :
    parse_sql_with_error_recovery (fun _ => demoTree) "a" =
      some (Except.ok (CallToolResult.success [Content.text demoOut])) ∧
    errorLineCount demoTree = 0 :=
  C6_strict_tolerant_consistency (fun _ => demoTree) "a"
    (CallToolResult.success [Content.text demoOut]) (by rfl)

/-- C7: on any input whose tree contains an unresolvable (error) node,
parse_sql returns the invalid-input error while
parse_sql_with_error_recovery — on a renderable tree — returns a
non-error text whose rendering has at least one error-node line. -/
theorem C7_monotonic_rejection (parse : String → Node) (sql : String)
    (h1 : hasError (parse sql) = true)
    (h2 : sliceable sql (parse sql) = true) :
    parse_sql parse sql =
      some (Except.error (McpError.invalid_params "Failed to parse sql" none)) ∧
    (parse_sql_with_error_recovery parse sql).isSome = true ∧
    (∀ e, parse_sql_with_error_recovery parse sql ≠ some (Except.error e)) ∧
    1 ≤ errorLineCount (parse sql) := by
  refine ⟨by simp [parse_sql, h1], ?_, ?_, errorLineCount_pos _ h1⟩
  · simp only [parse_sql_with_error_recovery, write_tree_join sql (parse sql) h2]
    rfl
  · intro e he
    simp only [parse_sql_with_error_recovery] at he
    cases hw : write_tree (parse sql) sql <;> rw [hw] at he <;> simp at he

/-- C7 witness: concrete strict rejection and tolerant error-line count
on a tree with an error node. -/
theorem C7_witness :
    parse_sql (fun _ => demoErrTree) "x" =
      some (Except.error (McpError.invalid_params "Failed to parse sql" none)) ∧
    1 ≤ errorLineCount demoErrTree :=
  ⟨(C7_monotonic_rejection (fun _ => demoErrTree) "x" (by decide) (by decide)).1,
   (C7_monotonic_rejection (fun _ => demoErrTree) "x" (by decide) (by decide)).2.2.2⟩

/-- Modelled from the spec: the grammar engine's tree for the empty
input — the minimal tree, a root node only, spanning (0,0)-(0,0) with
an empty byte range and no error nodes (the engine's behaviour on the
empty string lies outside this repository's code). -/
def emptyTree : Node := .mk "program" false ⟨0, 0⟩ ⟨0, 0⟩ 0 0 []

/-- The rendering of the minimal empty-input tree. -/
def emptyOut : String := (write_tree emptyTree "").getD ""

/-- C8 counterexample: on the empty input both operations do succeed on
the minimal tree, but the rendering is not free of leaf/quote-bearing
lines — the zero-child root is annotated with a quoted (empty) source
fragment like any leaf, so the single line bears a double quote. -/
theorem C8_counterexample :
    parse_sql (fun _ => emptyTree) "" =
      some (Except.ok (CallToolResult.success [Content.text emptyOut])) ∧
    '"' ∈ emptyOut.data :=
  ⟨rfl, by decide⟩

/-- C8 amended: on the empty input both operations succeed and agree on
the one-line rendering of the minimal tree, but that line bears a
quoted (empty) fragment; indeed every successful rendering of any tree
contains a double quote, because every finite tree has a zero-child
node and the renderer quotes the slice of every zero-child node. -/
theorem C8_empty_input :
    (∀ (src : String) (t : Node) (out : String),
      write_tree t src = some out → '"' ∈ out.data) ∧
    parse_sql (fun _ => emptyTree) "" =
      some (Except.ok (CallToolResult.success [Content.text emptyOut])) ∧
    parse_sql_with_error_recovery (fun _ => emptyTree) "" =
      some (Except.ok (CallToolResult.success [Content.text emptyOut])) := by
  refine ⟨?_, rfl, rfl⟩
  intro src t out h
  rw [write_tree] at h
  exact visit_quote src t 0 "" out h

/-- C8 witness: the general quote-bearing fact applied to the concrete
minimal tree. -/
theorem C8_witness : '"' ∈ emptyOut.data :=
  C8_empty_input.1 "" emptyTree emptyOut (by rfl)

/-- C9: a zero-child node's source slice is emitted verbatim between
double quotes, with no escaping or transformation: the emitted text is
literally the accumulated result, the indentation, the kind, a space
and opening quote, the slice itself, the closing quote, and the span —
for every slice, including slices containing double quotes or
newlines, whose characters appear unchanged. -/
theorem C9_verbatim_slice (src : String) (k : String) (e : Bool) (sp ep : Pos)
    (sb eb : Nat) (d : Nat) (r : String) (t : String)
    (ht : utf8_text src sb eb = some t) :
    visit src (.mk k e sp ep sb eb []) d r =
      some (r ++ indentStr d ++ k ++ " \"" ++ t ++ "\"" ++ " [" ++
        posDisplay sp ++ "-" ++ posDisplay ep ++ "]\n") := by
  rw [visit]
  simp only [List.length_nil, if_pos, ht, Option.map_some']
  rw [visitList]

/-- C9 witness: a slice containing a double quote and a newline is
emitted unchanged between the quotes. -/
theorem C9_witness :
    visit "a\"\nb" (.mk "str" false ⟨0, 0⟩ ⟨1, 1⟩ 0 4 []) 0 "" =
      some ("" ++ indentStr 0 ++ "str" ++ " \"" ++ "a\"\nb" ++ "\"" ++ " [" ++
        posDisplay ⟨0, 0⟩ ++ "-" ++ posDisplay ⟨1, 1⟩ ++ "]\n") :=
  C9_verbatim_slice "a\"\nb" "str" false ⟨0, 0⟩ ⟨1, 1⟩ 0 4 0 "" "a\"\nb" (by decide)

/-- C10: every emitted line ends with the span suffix — a space, an
opening bracket, the start position, a dash, the end position, a
closing bracket and the newline — where each position is shown through
the engine's native display as a parenthesised, comma-separated
zero-based (row, column) pair (the engine's convention, modelled from
the spec, with the end position exclusive); the same function of the
node's positions is used on every line, and both operations render
through the same write_tree. -/
theorem C10_span_convention (src : String) :
    (∀ (n : Node) (d : Nat) (l : String), nodeEmission src n d = some l →
      ∃ pre, l = pre ++ " [" ++ posDisplay n.startPos ++ "-" ++
        posDisplay n.endPos ++ "]\n") ∧
    (∀ p : Pos, posDisplay p =
      "(" ++ Nat.repr p.row ++ ", " ++ Nat.repr p.col ++ ")") ∧
    (∀ (parse : String → Node) (sql : String),
      parse_sql_with_error_recovery parse sql =
        (write_tree (parse sql) sql).map
          (fun r => Except.ok (CallToolResult.success [Content.text r]))) ∧
    (∀ (parse : String → Node) (sql : String), hasError (parse sql) = false →
      parse_sql parse sql = parse_sql_with_error_recovery parse sql) := by
  refine ⟨?_, fun p => rfl, fun parse sql => rfl, ?_⟩
  · intro n d l hl
    obtain ⟨k, e, sp, ep, sb, eb, cs⟩ := n
    rw [nodeEmission] at hl
    by_cases hc : cs.length = 0
    · rw [if_pos hc] at hl
      cases ht : utf8_text src sb eb with
      | none => rw [ht] at hl; cases hl
      | some t' =>
        rw [ht] at hl
        simp only [Option.map_some'] at hl
        obtain rfl := Option.some.inj hl
        exact ⟨indentStr d ++ k ++ " \"" ++ t' ++ "\"", rfl⟩
    · rw [if_neg hc] at hl
      simp only [Option.map_some'] at hl
      obtain rfl := Option.some.inj hl
      exact ⟨indentStr d ++ k, rfl⟩
  · intro parse sql h
    simp [parse_sql, parse_sql_with_error_recovery, h]

/-- C10 witness: the position display at a concrete position, and the
agreement of the two operations on the demonstration tree. -/
theorem C10_witness :
    posDisplay ⟨3, 7⟩ = "(" ++ Nat.repr 3 ++ ", " ++ Nat.repr 7 ++ ")" ∧
    parse_sql (fun _ => demoTree) "a" =
      parse_sql_with_error_recovery (fun _ => demoTree) "a" :=
  ⟨(C10_span_convention "a").2.1 ⟨3, 7⟩,
   (C10_span_convention "a").2.2.2 (fun _ => demoTree) "a" (by decide)⟩

/-- C1: parse_sql returns the single user-visible error — the
invalid-parameters failure with the fixed, tree-independent message
"Failed to parse sql" — exactly when the tree produced for the input
contains an error node anywhere at any depth; otherwise it returns the
rendered tree text, and on rejection nothing of the tree is rendered
or carried (every error result is the fixed constant). -/
theorem C1_strict_gate (parse : String → Node) (sql : String) :
    (parse_sql parse sql =
        some (Except.error (McpError.invalid_params "Failed to parse sql" none)) ↔
      hasError (parse sql) = true) ∧
    (hasError (parse sql) = false →
      parse_sql parse sql = (write_tree (parse sql) sql).map
        (fun r => Except.ok (CallToolResult.success [Content.text r]))) ∧
    (∀ e, parse_sql parse sql = some (Except.error e) →
      e = McpError.invalid_params "Failed to parse sql" none) := by
  by_cases h : hasError (parse sql) = true
  · have hps : parse_sql parse sql =
        some (Except.error (McpError.invalid_params "Failed to parse sql" none)) := by
      simp [parse_sql, h]
    refine ⟨⟨fun _ => h, fun _ => hps⟩, fun hf => ?_, fun e he => ?_⟩
    · rw [h] at hf; cases hf
    · rw [hps] at he
      exact (Except.error.inj (Option.some.inj he)).symm
  · have hfalse : hasError (parse sql) = false := by simpa using h
    have hps : parse_sql parse sql = (write_tree (parse sql) sql).map
        (fun r => Except.ok (CallToolResult.success [Content.text r])) := by
      simp [parse_sql, hfalse]
    refine ⟨⟨fun hmap => ?_, fun htrue => ?_⟩, fun _ => hps, fun e he => ?_⟩
    · rw [hps] at hmap
      cases hw : write_tree (parse sql) sql <;> rw [hw] at hmap <;> simp at hmap
    · rw [htrue] at hfalse; cases hfalse
    · rw [hps] at he
      cases hw : write_tree (parse sql) sql <;> rw [hw] at he <;> simp at he

/-- C1 witness: a parser stub producing a tree with an error node makes
parse_sql return the fixed invalid-parameters error. -/
theorem C1_witness :
    parse_sql (fun _ => demoErrTree) "x" =
      some (Except.error (McpError.invalid_params "Failed to parse sql" none)) :=
  (C1_strict_gate (fun _ => demoErrTree) "x").1.mpr (by rfl)

/-- C2: parse_sql_with_error_recovery never returns an error value on
any input, and whenever the parsed tree is structurally renderable
(every leaf byte range slices the source to valid UTF-8) it returns a
successful text result — also for trees containing error nodes, which
this operation never consults. -/
theorem C2_tolerant_total (parse : String → Node) (sql : String) :
    (∀ e, parse_sql_with_error_recovery parse sql ≠ some (Except.error e)) ∧
    (sliceable sql (parse sql) = true →
      (parse_sql_with_error_recovery parse sql).isSome = true) := by
  constructor
  · intro e he
    simp only [parse_sql_with_error_recovery] at he
    cases hw : write_tree (parse sql) sql <;> rw [hw] at he <;> simp at he
  · intro h
    simp only [parse_sql_with_error_recovery, write_tree_join sql (parse sql) h]
    rfl

/-- C2 witness: the tolerant operation succeeds on a concrete
renderable tree. -/
theorem C2_witness :
    (parse_sql_with_error_recovery (fun _ => demoTree) "a").isSome = true :=
  (C2_tolerant_total (fun _ => demoTree) "a").2 (by rfl)
